import Mathlib

/-!
Verification development for the arch-indexer sync/storage engine
(`arch-indexer/src/index.js` together with the SQL schema in `init.sql`).

The relational store is shallowly embedded as association lists keyed by
the primary keys of the two tables (`blocks.height`, `transactions.txid`);
an SQL `INSERT ... ON CONFLICT ... DO UPDATE` is an in-place upsert on the
association list.  Upstream RPC calls (`getBlockHash`, `getBlock`,
`getProcessedTransaction`) are modelled as oracles returning `Option`
values, `none` standing for a rejected promise.  JavaScript numbers used
in arithmetic (EMA, tps) are modelled as rationals; timestamps as `Int`
milliseconds.
-/

namespace ArchIndexer

/-- A row of the `blocks` table (`init.sql`): primary key `height`. -/
structure BlockRow where
  height : Nat
  hash : String
  timestamp : Int
  bitcoin_block_height : Option Nat
deriving DecidableEq, Repr

/-- The value stored in the `bitcoin_txids` column: either the upstream
array or the literal empty-array sentinel string written by `storeBlock`
(`tx.bitcoin_txids && tx.bitcoin_txids.length > 0 ? tx.bitcoin_txids : '\x7b\x7d'`). -/
inductive StoredTxids where
  | arr (l : List String)
  | lit (s : String)
deriving DecidableEq, Repr

/-- A row of the `transactions` table (`init.sql`): primary key `txid`. -/
structure TxRow where
  txid : String
  block_height : Nat
  data : String
  status : Nat
  bitcoin_txids : StoredTxids
deriving DecidableEq, Repr

/-- The relational store: the two tables, as association lists keyed by
their primary keys.  Row order is insertion order (upserts replace
in place), which is how PostgreSQL presents unordered scans here only up
to our modelling choice; all queries we embed key on columns, not order,
except the `MAX`/`MIN` aggregates which are order-independent. -/
structure Storage where
  blocks : List (Nat × BlockRow)
  transactions : List (String × TxRow)
deriving DecidableEq, Repr

def emptyStorage : Storage := { blocks := [], transactions := [] }

/-- Key lookup in an association list (embeds `WHERE <pk> = $1`). -/
def lookupA {κ ν : Type} [DecidableEq κ] : List (κ × ν) → κ → Option ν
  | [], _ => none
  | (k', v') :: rest, k => if k' = k then some v' else lookupA rest k

/-- `INSERT ... ON CONFLICT (<pk>) DO UPDATE`: replace the row with the
matching key in place, or append a fresh row. -/
def upsertAssoc {κ ν : Type} [DecidableEq κ] (k : κ) (v : ν) : List (κ × ν) → List (κ × ν)
  | [] => [(k, v)]
  | (k', v') :: rest => if k' = k then (k, v) :: rest else (k', v') :: upsertAssoc k v rest

/-- The result of upstream `getProcessedTransaction(txId)`. -/
structure ProcessedTransaction where
  runtime_transaction : String
  status : String
  bitcoin_txids : Option (List String)
deriving DecidableEq, Repr

/-- A block as assembled by `syncBlocks` before calling `storeBlock`:
the upstream `getBlock` result with `height` and `hash` patched in. -/
structure Block where
  height : Nat
  hash : String
  timestamp : Int
  bitcoin_block_height : Option Nat
  transactions : List String
deriving DecidableEq, Repr

/-- The `blocks`-table row written for a block by `storeBlock`. -/
def blockRowOf (b : Block) : BlockRow :=
  { height := b.height, hash := b.hash, timestamp := b.timestamp,
    bitcoin_block_height := b.bitcoin_block_height }

/-- The `transactions`-table row written for one transaction of a block:
`status` is `tx.status === 'Processing' ? 0 : 1`, and `bitcoin_txids`
falls back to the `'\x7b\x7d'` sentinel when the upstream list is missing or
empty. -/
def txRowOf (block_height : Nat) (txId : String) (tx : ProcessedTransaction) : TxRow :=
  { txid := txId
    block_height := block_height
    data := tx.runtime_transaction
    status := if tx.status = "Processing" then 0 else 1
    bitcoin_txids :=
      match tx.bitcoin_txids with
      | some l => if l.length > 0 then .arr l else .lit "\x7b\x7d"
      | none => .lit "\x7b\x7d" }

/-- Fetch every transaction of the block (`Promise.all` over
`getProcessedTransaction`); `none` when any single fetch rejects, which
rejects the whole `Promise.all`. -/
def fetchTxRows (f : String → Option ProcessedTransaction) (h : Nat) :
    List String → Option (List TxRow)
  | [] => some []
  | t :: ts =>
    match f t, fetchTxRows f h ts with
    | some tx, some rows => some (txRowOf h t tx :: rows)
    | _, _ => none

/-- Apply the per-transaction upserts issued inside the database
transaction, in list order. -/
def applyTxUpserts (rows : List TxRow) (txs : List (String × TxRow)) : List (String × TxRow) :=
  rows.foldl (fun acc r => upsertAssoc r.txid r acc) txs

/-- `storeBlock(block)`: inside one database transaction (`BEGIN` ...
`COMMIT`/`ROLLBACK`), upsert the block row, fetch and upsert every
transaction row, then commit.  `f` is the `getProcessedTransaction`
oracle (`none` = rejected fetch); `commitOk = false` injects a failure of
any of the storage queries or of `COMMIT` itself.  The returned pair is
(committed storage after the call, whether the call succeeded): on any
failure the transaction is rolled back, so the committed storage is the
original `s`, and the error is re-thrown (`false`). -/
def storeBlock (f : String → Option ProcessedTransaction) (commitOk : Bool)
    (s : Storage) (b : Block) : Storage × Bool :=
  let pending : Storage := { s with blocks := upsertAssoc b.height (blockRowOf b) s.blocks }
  match fetchTxRows f b.height b.transactions with
  | none => (s, false)
  | some rows =>
    let pending2 : Storage := { pending with transactions := applyTxUpserts rows pending.transactions }
    if commitOk then (pending2, true) else (s, false)

/-! ### Association-list lemmas -/

theorem lookupA_upsert_self {κ ν : Type} [DecidableEq κ] (k : κ) (v : ν) (l : List (κ × ν)) :
    lookupA (upsertAssoc k v l) k = some v := by
  induction l with
  | nil => simp [upsertAssoc, lookupA]
  | cons p rest ih =>
    obtain ⟨k', v'⟩ := p
    by_cases h : k' = k
    · simp [upsertAssoc, h, lookupA]
    · simp [upsertAssoc, h, lookupA, ih]

theorem lookupA_upsert_other {κ ν : Type} [DecidableEq κ] (k k' : κ) (v : ν)
    (l : List (κ × ν)) (hne : k' ≠ k) :
    lookupA (upsertAssoc k v l) k' = lookupA l k' := by
  have hke : k ≠ k' := Ne.symm hne
  induction l with
  | nil => simp [upsertAssoc, lookupA, hke]
  | cons p rest ih =>
    obtain ⟨k₀, v₀⟩ := p
    by_cases h : k₀ = k
    · subst h
      simp [upsertAssoc, lookupA, hke]
    · simp [upsertAssoc, h, lookupA, ih]

/-- Upserting a value that is already stored under that key is a no-op. -/
theorem upsert_noop {κ ν : Type} [DecidableEq κ] (k : κ) (v : ν) (l : List (κ × ν))
    (h : lookupA l k = some v) : upsertAssoc k v l = l := by
  induction l with
  | nil => simp [lookupA] at h
  | cons p rest ih =>
    obtain ⟨k', v'⟩ := p
    by_cases hk : k' = k
    · subst hk
      simp [lookupA] at h
      simp [upsertAssoc, h]
    · simp [lookupA, hk] at h
      simp [upsertAssoc, hk, ih h]

/-- Keys of an association list. -/
def keysOf {κ ν : Type} (l : List (κ × ν)) : List κ := l.map Prod.fst

theorem keysOf_upsert_mem {κ ν : Type} [DecidableEq κ] (k : κ) (v : ν) (l : List (κ × ν))
    (h : k ∈ keysOf l) : keysOf (upsertAssoc k v l) = keysOf l := by
  induction l with
  | nil => simp [keysOf] at h
  | cons p rest ih =>
    obtain ⟨k', v'⟩ := p
    by_cases hk : k' = k
    · simp [upsertAssoc, hk, keysOf]
    · have h' : k ∈ keysOf rest := by
        rcases (by simpa [keysOf] using h : k = k' ∨ k ∈ keysOf rest) with h₁ | h₂
        · exact absurd h₁.symm hk
        · exact h₂
      simp only [upsertAssoc, if_neg hk, keysOf, List.map_cons] at ih ⊢
      exact congrArg (k' :: ·) (ih h')

theorem keysOf_upsert_not_mem {κ ν : Type} [DecidableEq κ] (k : κ) (v : ν) (l : List (κ × ν))
    (h : k ∉ keysOf l) : keysOf (upsertAssoc k v l) = keysOf l ++ [k] := by
  induction l with
  | nil => simp [upsertAssoc, keysOf]
  | cons p rest ih =>
    obtain ⟨k', v'⟩ := p
    have h1 : k ≠ k' := by
      intro hh
      exact h (by simp [keysOf, hh])
    have h2 : k ∉ keysOf rest := by
      intro hh
      exact h (by simp [keysOf]; exact Or.inr (by simpa [keysOf] using hh))
    have hk : k' ≠ k := Ne.symm h1
    simp only [upsertAssoc, if_neg hk, keysOf, List.map_cons, List.cons_append] at ih ⊢
    exact congrArg (k' :: ·) (ih h2)

/-! ### Lemmas about `fetchTxRows` -/

theorem fetchTxRows_isSome_iff (f : String → Option ProcessedTransaction) (h : Nat)
    (ts : List String) :
    (∃ rows, fetchTxRows f h ts = some rows) ↔ ∀ t ∈ ts, (f t).isSome := by
  induction ts with
  | nil => simp [fetchTxRows]
  | cons t ts ih =>
    constructor
    · rintro ⟨rows, hrows⟩ t' ht'
      cases hf : f t with
      | none => simp [fetchTxRows, hf] at hrows
      | some tx =>
        cases hrest : fetchTxRows f h ts with
        | none => simp [fetchTxRows, hf, hrest] at hrows
        | some rows' =>
          rcases List.mem_cons.mp ht' with h1 | h2
          · subst h1; simp [hf]
          · exact (ih.mp ⟨rows', hrest⟩) t' h2
    · intro hall
      obtain ⟨rows', hrest⟩ := ih.mpr (fun t' ht' => hall t' (List.mem_cons_of_mem _ ht'))
      cases hf : f t with
      | none =>
        have := hall t (List.mem_cons_self _ _)
        simp [hf] at this
      | some tx => exact ⟨txRowOf h t tx :: rows', by simp [fetchTxRows, hf, hrest]⟩

theorem fetchTxRows_none_of_fail (f : String → Option ProcessedTransaction) (h : Nat)
    (ts : List String) (t : String) (ht : t ∈ ts) (hf : f t = none) :
    fetchTxRows f h ts = none := by
  cases hr : fetchTxRows f h ts with
  | none => rfl
  | some rows =>
    have := ((fetchTxRows_isSome_iff f h ts).mp ⟨rows, hr⟩) t ht
    simp [hf] at this

/-- Every fetched row is the row of one listed transaction id. -/
theorem fetchTxRows_rows_shape (f : String → Option ProcessedTransaction) (h : Nat)
    (ts : List String) (rows : List TxRow) (hr : fetchTxRows f h ts = some rows) :
    ∀ r ∈ rows, ∃ t tx, t ∈ ts ∧ f t = some tx ∧ r = txRowOf h t tx := by
  induction ts generalizing rows with
  | nil =>
    simp [fetchTxRows] at hr
    subst hr; simp
  | cons t ts ih =>
    cases hf : f t with
    | none => simp [fetchTxRows, hf] at hr
    | some tx =>
      cases hrest : fetchTxRows f h ts with
      | none => simp [fetchTxRows, hf, hrest] at hr
      | some rows' =>
        simp [fetchTxRows, hf, hrest] at hr
        subst hr
        intro r hrm
        rcases List.mem_cons.mp hrm with h1 | h2
        · exact ⟨t, tx, List.mem_cons_self _ _, hf, h1⟩
        · obtain ⟨t', tx', ht', hf', hr'⟩ := ih rows' hrest r h2
          exact ⟨t', tx', List.mem_cons_of_mem _ ht', hf', hr'⟩

/-- The fetched rows are keyed exactly by the listed transaction ids, in order. -/
theorem fetchTxRows_keys (f : String → Option ProcessedTransaction) (h : Nat)
    (ts : List String) (rows : List TxRow) (hr : fetchTxRows f h ts = some rows) :
    rows.map TxRow.txid = ts := by
  induction ts generalizing rows with
  | nil => simp [fetchTxRows] at hr; subst hr; simp
  | cons t ts ih =>
    cases hf : f t with
    | none => simp [fetchTxRows, hf] at hr
    | some tx =>
      cases hrest : fetchTxRows f h ts with
      | none => simp [fetchTxRows, hf, hrest] at hr
      | some rows' =>
        simp [fetchTxRows, hf, hrest] at hr
        subst hr
        simp [txRowOf, ih rows' hrest]

/-! ### Lemmas about `applyTxUpserts` -/

/-- Upserting rows that are already stored identically is a no-op. -/
theorem applyTxUpserts_noop (rows : List TxRow) (txs : List (String × TxRow))
    (h : ∀ r ∈ rows, lookupA txs r.txid = some r) : applyTxUpserts rows txs = txs := by
  induction rows with
  | nil => rfl
  | cons r rest ih =>
    have h1 : upsertAssoc r.txid r txs = txs :=
      upsert_noop _ _ _ (h r (List.mem_cons_self _ _))
    show applyTxUpserts rest (upsertAssoc r.txid r txs) = txs
    rw [h1]
    exact ih (fun r' hr' => h r' (List.mem_cons_of_mem _ hr'))

/-- Keys not named by any row are untouched by the fold of upserts. -/
theorem applyTxUpserts_lookup_other (rows : List TxRow) (txs : List (String × TxRow))
    (k : String) (h : k ∉ rows.map TxRow.txid) :
    lookupA (applyTxUpserts rows txs) k = lookupA txs k := by
  induction rows generalizing txs with
  | nil => rfl
  | cons r rest ih =>
    have h1 : k ≠ r.txid := by
      intro hh
      exact h (by rw [List.map_cons, hh]; exact List.mem_cons_self _ _)
    have h2 : k ∉ rest.map TxRow.txid := by
      intro hh
      exact h (by rw [List.map_cons]; exact List.mem_cons_of_mem _ hh)
    show lookupA (applyTxUpserts rest (upsertAssoc r.txid r txs)) k = lookupA txs k
    rw [ih _ h2, lookupA_upsert_other _ _ _ _ h1]

/-- If every row carrying key `k` is the same row `r₀`, and some row carries
`k`, then after the fold `k` maps to `r₀` (last-writer-wins degenerates to
the common value). -/
theorem applyTxUpserts_lookup_self (rows : List TxRow) (txs : List (String × TxRow))
    (k : String) (r₀ : TxRow)
    (hall : ∀ r ∈ rows, r.txid = k → r = r₀) (hmem : k ∈ rows.map TxRow.txid) :
    lookupA (applyTxUpserts rows txs) k = some r₀ := by
  induction rows generalizing txs with
  | nil => simp at hmem
  | cons r rest ih =>
    show lookupA (applyTxUpserts rest (upsertAssoc r.txid r txs)) k = some r₀
    by_cases hk : k ∈ rest.map TxRow.txid
    · exact ih _ (fun r' hr' => hall r' (List.mem_cons_of_mem _ hr')) hk
    · have hr : r.txid = k := by
        rw [List.map_cons] at hmem
        rcases List.mem_cons.mp hmem with h1 | h2
        · exact h1.symm
        · exact absurd h2 hk
      have hr0 : r = r₀ := hall r (List.mem_cons_self _ _) hr
      rw [applyTxUpserts_lookup_other _ _ _ hk, ← hr, hr0]
      exact lookupA_upsert_self _ _ _

/-! ### Structural lemmas about `storeBlock` -/

/-- On any failure (rejected transaction fetch or failed storage
query/commit) `storeBlock` rolls back: the committed storage is the input
storage and the error is re-thrown. -/
theorem storeBlock_fail_rollback (f : String → Option ProcessedTransaction) (ok : Bool)
    (s : Storage) (b : Block) (s' : Storage)
    (h : storeBlock f ok s b = (s', false)) : s' = s := by
  cases hr : fetchTxRows f b.height b.transactions with
  | none =>
    simp [storeBlock, hr] at h
    exact h.symm
  | some rows =>
    cases ok with
    | false =>
      simp [storeBlock, hr] at h
      exact h.symm
    | true => simp [storeBlock, hr] at h

/-- `storeBlock` fails exactly when some listed transaction fetch rejects
or the storage transaction itself fails. -/
theorem storeBlock_fail_iff (f : String → Option ProcessedTransaction) (ok : Bool)
    (s : Storage) (b : Block) :
    (storeBlock f ok s b).2 = false ↔ ((∃ t ∈ b.transactions, f t = none) ∨ ok = false) := by
  cases hr : fetchTxRows f b.height b.transactions with
  | none =>
    have hfail : ∃ t ∈ b.transactions, f t = none := by
      by_contra hne
      push_neg at hne
      have hall : ∀ t ∈ b.transactions, (f t).isSome := by
        intro t ht
        cases hf : f t with
        | none => exact absurd hf (hne t ht)
        | some tx => simp
      obtain ⟨rows, hrows⟩ := (fetchTxRows_isSome_iff f b.height b.transactions).mpr hall
      rw [hr] at hrows
      exact Option.noConfusion hrows
    simp [storeBlock, hr, hfail]
  | some rows =>
    cases ok with
    | false => simp [storeBlock, hr]
    | true =>
      simp [storeBlock, hr]
      intro t ht hf
      have := fetchTxRows_none_of_fail f b.height b.transactions t ht hf
      rw [hr] at this
      exact Option.noConfusion this

/-- On success the committed storage is the input with the block row
upserted and each fetched transaction row upserted. -/
theorem storeBlock_success_shape (f : String → Option ProcessedTransaction) (ok : Bool)
    (s : Storage) (b : Block) (s' : Storage)
    (h : storeBlock f ok s b = (s', true)) :
    ok = true ∧ ∃ rows, fetchTxRows f b.height b.transactions = some rows ∧
      s' = { blocks := upsertAssoc b.height (blockRowOf b) s.blocks,
             transactions := applyTxUpserts rows s.transactions } := by
  cases hr : fetchTxRows f b.height b.transactions with
  | none => simp [storeBlock, hr] at h
  | some rows =>
    cases ok with
    | false => simp [storeBlock, hr] at h
    | true =>
      simp [storeBlock, hr] at h
      exact ⟨rfl, rows, rfl, h.symm⟩

theorem txRowOf_txid (h : Nat) (t : String) (tx : ProcessedTransaction) :
    (txRowOf h t tx).txid = t := rfl

/-- Re-ingesting a block whose rows (block row and every transaction row,
for identical upstream data) are already stored is a no-op: the storage
comes back unchanged and the call succeeds. -/
theorem storeBlock_noop (f : String → Option ProcessedTransaction) (s : Storage) (b : Block)
    (hblock : lookupA s.blocks b.height = some (blockRowOf b))
    (htx : ∀ t ∈ b.transactions, ∃ tx, f t = some tx ∧
      lookupA s.transactions t = some (txRowOf b.height t tx)) :
    storeBlock f true s b = (s, true) := by
  have hall : ∀ t ∈ b.transactions, (f t).isSome := by
    intro t ht
    obtain ⟨tx, hf, _⟩ := htx t ht
    simp [hf]
  obtain ⟨rows, hrows⟩ := (fetchTxRows_isSome_iff f b.height b.transactions).mpr hall
  have hnoop : ∀ r ∈ rows, lookupA s.transactions r.txid = some r := by
    intro r hr
    obtain ⟨t, tx, ht, hf, hshape⟩ := fetchTxRows_rows_shape f b.height b.transactions rows hrows r hr
    obtain ⟨tx', hf', hlook⟩ := htx t ht
    have : tx' = tx := by rw [hf] at hf'; exact ((Option.some.injEq _ _).mp hf').symm
    subst this
    rw [hshape, txRowOf_txid]
    exact hlook
  have h1 : upsertAssoc b.height (blockRowOf b) s.blocks = s.blocks := upsert_noop _ _ _ hblock
  have h2 : applyTxUpserts rows s.transactions = s.transactions := applyTxUpserts_noop _ _ hnoop
  simp [storeBlock, hrows, h1, h2]

/-- C2: persisting a block is atomic with respect to its transactions:
either the whole block with all its transaction rows commits, or — on any
error, including a rejected transaction fetch — the committed storage is
unchanged and the error is re-raised. -/
theorem storeBlock_atomicity (f : String → Option ProcessedTransaction) (ok : Bool)
    (s : Storage) (b : Block) :
    ((∃ t ∈ b.transactions, f t = none) ∨ ok = false →
      storeBlock f ok s b = (s, false)) ∧
    ((∀ t ∈ b.transactions, (f t).isSome) → ok = true →
      ∃ s', storeBlock f ok s b = (s', true) ∧
        lookupA s'.blocks b.height = some (blockRowOf b) ∧
        (∀ t ∈ b.transactions, ∃ tx, f t = some tx ∧
          lookupA s'.transactions t = some (txRowOf b.height t tx)) ∧
        (∀ k, k ≠ b.height → lookupA s'.blocks k = lookupA s.blocks k) ∧
        (∀ t, t ∉ b.transactions → lookupA s'.transactions t = lookupA s.transactions t)) := by
  constructor
  · intro h
    have hsnd : (storeBlock f ok s b).2 = false := (storeBlock_fail_iff f ok s b).mpr h
    have h1 : storeBlock f ok s b = ((storeBlock f ok s b).1, false) := by rw [← hsnd]
    have h2 := storeBlock_fail_rollback f ok s b _ h1
    rw [h1, h2]
  · intro hall hok
    subst hok
    obtain ⟨rows, hrows⟩ := (fetchTxRows_isSome_iff f b.height b.transactions).mpr hall
    have hkeys : rows.map TxRow.txid = b.transactions := fetchTxRows_keys _ _ _ _ hrows
    refine ⟨{ blocks := upsertAssoc b.height (blockRowOf b) s.blocks,
              transactions := applyTxUpserts rows s.transactions }, ?_, ?_, ?_, ?_, ?_⟩
    · simp [storeBlock, hrows]
    · exact lookupA_upsert_self _ _ _
    · intro t ht
      have hsome := hall t ht
      obtain ⟨tx, hf⟩ := Option.isSome_iff_exists.mp hsome
      refine ⟨tx, hf, ?_⟩
      refine applyTxUpserts_lookup_self rows s.transactions t (txRowOf b.height t tx) ?_ ?_
      · intro r hr hrt
        obtain ⟨t', tx', ht', hf', hshape⟩ :=
          fetchTxRows_rows_shape f b.height b.transactions rows hrows r hr
        have htt : t' = t := by rw [hshape, txRowOf_txid] at hrt; exact hrt
        subst htt
        have : tx' = tx := by rw [hf] at hf'; exact ((Option.some.injEq _ _).mp hf').symm
        subst this
        exact hshape
      · rw [hkeys]; exact ht
    · intro k hk
      exact lookupA_upsert_other _ _ _ _ hk
    · intro t ht
      refine applyTxUpserts_lookup_other rows s.transactions t ?_
      rw [hkeys]; exact ht

/-- C3: ingestion is idempotent — re-running `storeBlock` for an
already-persisted height with identical upstream data (same block fields
and same fetched transaction details) leaves the stored content of both
tables unchanged: every upsert is a true no-op on identical input. -/
theorem ingest_idempotent (f : String → Option ProcessedTransaction) (s : Storage) (b : Block)
    (hblock : lookupA s.blocks b.height = some (blockRowOf b))
    (htx : ∀ t ∈ b.transactions, ∃ tx, f t = some tx ∧
      lookupA s.transactions t = some (txRowOf b.height t tx)) :
    storeBlock f true s b = (s, true) :=
  storeBlock_noop f s b hblock htx

/-! ### The sync loop (`syncBlocks`) -/

/-- The upstream `getBlock(blockHash)` result before `syncBlocks` patches
in `height` and `hash`. -/
structure RawBlock where
  timestamp : Int
  bitcoin_block_height : Option Nat
  transactions : List String
deriving DecidableEq, Repr

/-- The oracle responses one inner-loop iteration of `syncBlocks` sees:
`blockHash` is the `getBlockHash(currentBlockHeight)` reply (`none` = the
RPC rejected), `getBlock` the reply per hash, `fetchTx` the
`getProcessedTransaction` replies used inside `storeBlock`, and
`commitOk` injects storage-transaction failure.  Quantifying over lists
of environments quantifies over arbitrary injected transient failures. -/
structure Env where
  blockHash : Option String
  getBlock : String → Option RawBlock
  fetchTx : String → Option ProcessedTransaction
  commitOk : Bool

/-- `block.height = currentBlockHeight; block.hash = blockHash`. -/
def assembleBlock (cursor : Nat) (h : String) (raw : RawBlock) : Block :=
  { height := cursor, hash := h, timestamp := raw.timestamp,
    bitcoin_block_height := raw.bitcoin_block_height, transactions := raw.transactions }

/-- One iteration of the inner `while (currentBlockHeight <= latestBlockHeight)`
loop of `syncBlocks`, acting on (cursor, committed storage): fetch the
hash, fetch the block, store it; only on full success advance the cursor
by one.  Any failure is caught, leaving cursor and storage as they were
(the loop then sleeps 5s and retries the same height). -/
def syncStep (e : Env) (st : Nat × Storage) : Nat × Storage :=
  match e.blockHash with
  | none => st
  | some h =>
    match e.getBlock h with
    | none => st
    | some raw =>
      match storeBlock e.fetchTx e.commitOk st.2 (assembleBlock st.1 h raw) with
      | (s', true) => (st.1 + 1, s')
      | (s', false) => (st.1, s')

/-- Whether the iteration hit the `catch` branch. -/
def stepFailed (e : Env) (st : Nat × Storage) : Bool :=
  match e.blockHash with
  | none => true
  | some h =>
    match e.getBlock h with
    | none => true
    | some raw => !(storeBlock e.fetchTx e.commitOk st.2 (assembleBlock st.1 h raw)).2

/-- Backoff slept by the iteration: the fixed 5000 ms of the `catch`
branch on failure, none on success. -/
def stepDelay (e : Env) (st : Nat × Storage) : Nat :=
  if stepFailed e st then 5000 else 0

/-- A run of the inner loop under a given schedule of oracle responses. -/
def syncRun (envs : List Env) (st : Nat × Storage) : Nat × Storage :=
  envs.foldl (fun st e => syncStep e st) st

/-- The set of persisted heights, in storage order. -/
def heightsOf (s : Storage) : List Nat := keysOf s.blocks

theorem syncStep_of_failed (e : Env) (st : Nat × Storage)
    (h : stepFailed e st = true) : syncStep e st = st := by
  cases hbh : e.blockHash with
  | none => simp [syncStep, hbh]
  | some hsh =>
    cases hgb : e.getBlock hsh with
    | none => simp [syncStep, hbh, hgb]
    | some raw =>
      cases hsb : storeBlock e.fetchTx e.commitOk st.2 (assembleBlock st.1 hsh raw) with
      | mk s' flag =>
        simp only [stepFailed, hbh, hgb, hsb, Bool.not_eq_true'] at h
        subst h
        simp only [syncStep, hbh, hgb, hsb]
        rw [storeBlock_fail_rollback _ _ _ _ _ hsb]

theorem syncStep_inv (e : Env) (st : Nat × Storage)
    (hinv : heightsOf st.2 = List.range st.1) :
    heightsOf (syncStep e st).2 = List.range (syncStep e st).1 := by
  cases hbh : e.blockHash with
  | none => simpa [syncStep, hbh] using hinv
  | some hsh =>
    cases hgb : e.getBlock hsh with
    | none => simpa [syncStep, hbh, hgb] using hinv
    | some raw =>
      cases hsb : storeBlock e.fetchTx e.commitOk st.2 (assembleBlock st.1 hsh raw) with
      | mk s' flag =>
        cases flag with
        | false =>
          simp only [syncStep, hbh, hgb, hsb]
          show heightsOf s' = List.range st.1
          rw [storeBlock_fail_rollback _ _ _ _ _ hsb]
          exact hinv
        | true =>
          obtain ⟨-, rows, -, hshape⟩ := storeBlock_success_shape _ _ _ _ _ hsb
          have hmem : (assembleBlock st.1 hsh raw).height ∉ heightsOf st.2 := by
            rw [hinv]
            simp [assembleBlock]
          have hh : heightsOf s' = heightsOf st.2 ++ [st.1] := by
            rw [hshape]
            exact keysOf_upsert_not_mem _ _ _ hmem
          simp only [syncStep, hbh, hgb, hsb]
          show heightsOf s' = List.range (st.1 + 1)
          rw [hh, hinv, List.range_succ]

/-- C1: gap-freedom of the sync engine.  Starting from any state whose
persisted heights are exactly the contiguous range `[0, cursor)`, after
any schedule of oracle responses — arbitrary injected failures of the
hash fetch, block fetch, transaction fetches or the storage commit — the
persisted heights are again exactly `[0, cursor)` for the new cursor;
moreover a failing iteration leaves cursor and storage untouched and
sleeps the fixed 5000 ms backoff before the same height is retried, so no
height is ever skipped. -/
theorem sync_gap_free (envs : List Env) (st : Nat × Storage)
    (hinv : heightsOf st.2 = List.range st.1) :
    heightsOf (syncRun envs st).2 = List.range (syncRun envs st).1 ∧
    ∀ e s, stepFailed e s = true → syncStep e s = s ∧ stepDelay e s = 5000 := by
  constructor
  · induction envs generalizing st with
    | nil => exact hinv
    | cons e rest ih =>
      show heightsOf (syncRun rest (syncStep e st)).2 = List.range (syncRun rest (syncStep e st)).1
      exact ih (syncStep e st) (syncStep_inv e st hinv)
  · intro e s h
    exact ⟨syncStep_of_failed e s h, by simp [stepDelay, h]⟩

/-! ### Startup and resume (`app.listen` callback) -/

/-- `SELECT MAX(height) as max_height FROM blocks`: `none` is the SQL
NULL returned on an empty table.  Heights are naturals, so folding `max`
from `0` over a nonempty key list computes the aggregate. -/
def maxHeightQ (s : Storage) : Option Nat :=
  if heightsOf s = [] then none else some ((heightsOf s).foldl max 0)

/-- `currentBlockHeight = result.rows[0].max_height || 0`: the NULL of an
empty store (and, vacuously, a stored maximum of 0 — both are falsy)
falls back to the genesis height 0. -/
def initCursor (s : Storage) : Nat :=
  match maxHeightQ s with
  | none => 0
  | some m => m

theorem foldl_max_range (k a : Nat) :
    List.foldl max a (List.range (k + 1)) = max a k := by
  induction k generalizing a with
  | zero => simp [List.range_succ]
  | succ k ih =>
    rw [List.range_succ, List.foldl_append, ih]
    simp [Nat.max_assoc, Nat.max_eq_right (Nat.le_succ k)]

theorem initCursor_of_range (s : Storage) (k : Nat)
    (h : heightsOf s = List.range (k + 1)) : initCursor s = k := by
  have hne : heightsOf s ≠ [] := by
    rw [h]
    simp
  simp [initCursor, maxHeightQ, hne, h, foldl_max_range]

/-- Deterministic upstream chain data, for runs in which every RPC call
succeeds and returns the same data for the same height ("identical
upstream data"). -/
structure DetChain where
  blockHash : Nat → String
  timestamp : Nat → Int
  bitcoin_block_height : Nat → Option Nat
  txids : Nat → List String
  fetchTx : String → ProcessedTransaction

/-- The block `syncBlocks` assembles for height `h` of the chain. -/
def chainBlock (c : DetChain) (h : Nat) : Block :=
  { height := h, hash := c.blockHash h, timestamp := c.timestamp h,
    bitcoin_block_height := c.bitcoin_block_height h, transactions := c.txids h }

/-- One fully successful iteration of the sync loop at height `h`. -/
def persistHeight (c : DetChain) (h : Nat) (s : Storage) : Storage :=
  (storeBlock (fun t => some (c.fetchTx t)) true s (chainBlock c h)).1

/-- The sync loop walking the given heights, every iteration succeeding. -/
def persistRange (c : DetChain) (hs : List Nat) (s : Storage) : Storage :=
  hs.foldl (fun acc h => persistHeight c h acc) s

theorem fetchTxRows_total (g : String → ProcessedTransaction) (h : Nat) (ts : List String) :
    fetchTxRows (fun t => some (g t)) h ts = some (ts.map (fun t => txRowOf h t (g t))) := by
  induction ts with
  | nil => rfl
  | cons t ts ih => simp [fetchTxRows, ih]

theorem persistHeight_eq (c : DetChain) (h : Nat) (s : Storage) :
    persistHeight c h s =
      { blocks := upsertAssoc h (blockRowOf (chainBlock c h)) s.blocks,
        transactions :=
          applyTxUpserts ((c.txids h).map (fun t => txRowOf h t (c.fetchTx t))) s.transactions } := by
  simp [persistHeight, storeBlock, fetchTxRows_total, chainBlock, applyTxUpserts]

/-- Re-running a fully successful iteration at the same height with the
same chain data is a no-op on storage. -/
theorem persistHeight_idem (c : DetChain) (h : Nat) (s : Storage) :
    persistHeight c h (persistHeight c h s) = persistHeight c h s := by
  have hrows : ((c.txids h).map (fun t => txRowOf h t (c.fetchTx t))).map TxRow.txid = c.txids h := by
    simp [List.map_map, Function.comp_def, txRowOf]
  have hnoop : storeBlock (fun t => some (c.fetchTx t)) true (persistHeight c h s) (chainBlock c h) =
      (persistHeight c h s, true) := by
    apply storeBlock_noop
    · rw [persistHeight_eq]
      exact lookupA_upsert_self _ _ _
    · intro t ht
      refine ⟨c.fetchTx t, rfl, ?_⟩
      rw [persistHeight_eq]
      refine applyTxUpserts_lookup_self _ _ _ _ ?_ ?_
      · intro r hr hrt
        obtain ⟨t', ht', hshape⟩ := List.mem_map.mp hr
        rw [← hshape, txRowOf_txid] at hrt
        subst hrt
        exact hshape.symm
      · rw [hrows]
        exact ht
  show (storeBlock (fun t => some (c.fetchTx t)) true (persistHeight c h s) (chainBlock c h)).1 =
    persistHeight c h s
  rw [hnoop]

theorem heightsOf_persistHeight_new (c : DetChain) (h : Nat) (s : Storage)
    (hmem : h ∉ heightsOf s) :
    heightsOf (persistHeight c h s) = heightsOf s ++ [h] := by
  rw [persistHeight_eq]
  exact keysOf_upsert_not_mem _ _ _ hmem

/-- A full pass from the empty store over heights `[0, n)` persists
exactly those heights, in order. -/
theorem heightsOf_persistRange (c : DetChain) (n : Nat) :
    heightsOf (persistRange c (List.range n) emptyStorage) = List.range n := by
  induction n with
  | zero => rfl
  | succ n ih =>
    have hsplit : persistRange c (List.range (n + 1)) emptyStorage =
        persistHeight c n (persistRange c (List.range n) emptyStorage) := by
      rw [List.range_succ]
      simp [persistRange, List.foldl_append]
    rw [hsplit, heightsOf_persistHeight_new, ih, List.range_succ]
    rw [ih]
    simp

/-- C4: resume correctness.  On startup the cursor is derived solely from
storage: 0 on an empty store, otherwise `max(height)` — after a partial
run that persisted heights `[0, k]` the restarted process resumes at
cursor `k`, and re-running the loop from there (re-ingesting height `k`,
then continuing to the tip) reaches exactly the storage state of an
uninterrupted run from genesis to the tip. -/
theorem resume_correct (c : DetChain) (tip k : Nat) (hk : k ≤ tip) :
    initCursor emptyStorage = 0 ∧
    initCursor (persistRange c (List.range (k + 1)) emptyStorage) = k ∧
    persistRange c (List.range' k (tip + 1 - k))
        (persistRange c (List.range (k + 1)) emptyStorage) =
      persistRange c (List.range (tip + 1)) emptyStorage := by
  refine ⟨rfl, initCursor_of_range _ k (heightsOf_persistRange c (k + 1)), ?_⟩
  have h1 : tip + 1 - k = (tip - k) + 1 := by omega
  have hS : persistRange c (List.range (k + 1)) emptyStorage =
      persistHeight c k (persistRange c (List.range k) emptyStorage) := by
    rw [List.range_succ]
    simp [persistRange, List.foldl_append]
  have hidem : persistHeight c k (persistRange c (List.range (k + 1)) emptyStorage) =
      persistRange c (List.range (k + 1)) emptyStorage := by
    rw [hS, persistHeight_idem]
  have hlhs : persistRange c (List.range' k (tip + 1 - k))
      (persistRange c (List.range (k + 1)) emptyStorage) =
      persistRange c (List.range' (k + 1) (tip - k))
        (persistRange c (List.range (k + 1)) emptyStorage) := by
    rw [h1, List.range'_succ]
    show persistRange c (List.range' (k + 1) (tip - k))
        (persistHeight c k (persistRange c (List.range (k + 1)) emptyStorage)) = _
    rw [hidem]
  have hrhs : List.range (tip + 1) = List.range (k + 1) ++ List.range' (k + 1) (tip - k) := by
    rw [List.range_eq_range', List.range_eq_range']
    have := List.range'_append_1 0 (k + 1) (tip - k)
    rw [show (0 : Nat) + (k + 1) = k + 1 from by omega] at this
    rw [show tip - k + (k + 1) = tip + 1 from by omega] at this
    exact this.symm
  rw [hlhs, hrhs]
  simp [persistRange, List.foldl_append]

/-! ### `GET /api/search` -/

/-- Numeric value of a digit string. -/
def digitsVal (cs : List Char) : Nat :=
  cs.foldl (fun a c => a * 10 + (c.toNat - 48)) 0

/-- JS `parseInt(term)` as applied to search terms (base 10): an optional
sign followed by the longest leading digit prefix, ignoring trailing
non-digits; `none` is NaN (no leading digit). -/
def parseIntJs (s : String) : Option Int :=
  match s.data with
  | '-' :: rest =>
    let ds := rest.takeWhile Char.isDigit
    if ds = [] then none else some (-(digitsVal ds : Int))
  | '+' :: rest =>
    let ds := rest.takeWhile Char.isDigit
    if ds = [] then none else some ((digitsVal ds : Int))
  | cs =>
    let ds := cs.takeWhile Char.isDigit
    if ds = [] then none else some ((digitsVal ds : Int))

/-- `SELECT * FROM transactions WHERE txid = $1` (primary-key lookup). -/
def txByTxid (s : Storage) (term : String) : Option TxRow :=
  lookupA s.transactions term

/-- `SELECT * FROM blocks WHERE hash = $1`, first matching row. -/
def blockByHash (s : Storage) (term : String) : Option BlockRow :=
  (s.blocks.find? (fun p => p.2.hash == term)).map Prod.snd

/-- `SELECT * FROM blocks WHERE height = $1` for a parsed height. -/
def blockByHeight (s : Storage) (h : Int) : Option BlockRow :=
  (s.blocks.find? (fun p => (p.2.height : Int) == h)).map Prod.snd

/-- The three possible `/api/search` responses: a `type: 'transaction'`
match, a `type: 'block'` match, or the structured 404. -/
inductive SearchResult where
  | transactionResult (t : TxRow)
  | blockResult (b : BlockRow)
  | notFound
deriving DecidableEq, Repr

/-- The `/api/search` handler: try the transaction-id lookup, then the
block-hash lookup, then — if `parseInt` does not yield NaN — the
block-height lookup; fall through to the 404. -/
def searchHandler (s : Storage) (term : String) : SearchResult :=
  match txByTxid s term with
  | some t => .transactionResult t
  | none =>
    match blockByHash s term with
    | some b => .blockResult b
    | none =>
      match parseIntJs term with
      | some h =>
        match blockByHeight s h with
        | some b => .blockResult b
        | none => .notFound
      | none => .notFound

/-- C5: search precedence.  The transaction-id lookup wins over the
block-hash lookup (in particular a term stored as both a transaction id
and a block hash returns the transaction), the block-hash lookup wins
over the height lookup, the height lookup only runs when the term parses
as an integer, and the result is the structured 404 exactly when every
attempted lookup misses. -/
theorem search_precedence (s : Storage) (term : String) :
    (∀ t, txByTxid s term = some t → searchHandler s term = .transactionResult t) ∧
    (txByTxid s term = none → ∀ b, blockByHash s term = some b →
      searchHandler s term = .blockResult b) ∧
    (txByTxid s term = none → blockByHash s term = none →
      ∀ h b, parseIntJs term = some h → blockByHeight s h = some b →
        searchHandler s term = .blockResult b) ∧
    (txByTxid s term = none → blockByHash s term = none → parseIntJs term = none →
      searchHandler s term = .notFound) ∧
    (txByTxid s term = none → blockByHash s term = none →
      ∀ h, parseIntJs term = some h → blockByHeight s h = none →
        searchHandler s term = .notFound) := by
  refine ⟨?_, ?_, ?_, ?_, ?_⟩
  · intro t h1
    simp [searchHandler, h1]
  · intro h1 b h2
    simp [searchHandler, h1, h2]
  · intro h1 h2 h b h3 h4
    simp [searchHandler, h1, h2, h3, h4]
  · intro h1 h2 h3
    simp [searchHandler, h1, h2, h3]
  · intro h1 h2 h h3 h4
    simp [searchHandler, h1, h2, h3, h4]

/-! ### Progress-tracker EMA (`syncBlocks` success path) -/

/-- `averageBlockTime = averageBlockTime === 0 ? blockTime
: (averageBlockTime * 0.9 + blockTime * 0.1)`. -/
def emaUpdate (avg sample : ℚ) : ℚ :=
  if avg = 0 then sample else avg * (9 / 10) + sample * (1 / 10)

/-- `averageBlockTime` after the given per-block latency samples
(initial value 0). -/
def emaRun (samples : List ℚ) : ℚ :=
  samples.foldl emaUpdate 0

/-- The spec-worded update rule, for comparison: seeded by the first
observed sample, thereafter always `avg*0.9 + sample*0.1` (`none` until
a first sample arrives). -/
def emaSpecStep (acc : Option ℚ) (sample : ℚ) : Option ℚ :=
  match acc with
  | none => some sample
  | some a => some (a * (9 / 10) + sample * (1 / 10))

def emaSpecRun (samples : List ℚ) : Option ℚ :=
  samples.foldl emaSpecStep none

/-- C6 counterexample: with latency samples `[0, 200]` the claimed rule
(seed with the first observed sample — here 0 — then apply the EMA
formula) predicts `0*0.9 + 200*0.1 = 20`, but the code keys re-seeding on
`averageBlockTime === 0`, so it re-seeds and yields `200`. -/
theorem ema_zero_seed_counterexample :
    emaRun [0, 200] = 200 ∧ emaSpecRun [0, 200] = some 20 ∧ (200 : ℚ) ≠ 20 := by
  refine ⟨?_, ?_, ?_⟩ <;> norm_num [emaRun, emaUpdate, emaSpecRun, emaSpecStep]

theorem emaRun_agree (l : List ℚ) (a : ℚ) (ha : 0 < a) (hl : ∀ x ∈ l, 0 ≤ x) :
    List.foldl emaUpdate a l = (List.foldl emaSpecStep (some a) l).getD 0 ∧
    0 < List.foldl emaUpdate a l := by
  induction l generalizing a with
  | nil => exact ⟨rfl, ha⟩
  | cons x xs ih =>
    have hx : 0 ≤ x := hl x (List.mem_cons_self _ _)
    have hne : ¬a = 0 := ne_of_gt ha
    have hstep : emaUpdate a x = a * (9 / 10) + x * (1 / 10) := by
      simp [emaUpdate, hne]
    have hpos : 0 < a * (9 / 10) + x * (1 / 10) := by
      have h1 : 0 < a * (9 / 10) := by positivity
      have h2 : 0 ≤ x * (1 / 10) := by positivity
      linarith
    have := ih (a * (9 / 10) + x * (1 / 10)) hpos
      (fun y hy => hl y (List.mem_cons_of_mem _ hy))
    constructor
    · show List.foldl emaUpdate (emaUpdate a x) xs = _
      rw [hstep]
      exact this.1
    · show 0 < List.foldl emaUpdate (emaUpdate a x) xs
      rw [hstep]
      exact this.2

/-- C6 amended: `averageBlockTime` is re-seeded whenever the running
average is zero — in particular by the first nonzero sample — and
otherwise updated as `avg*0.9 + sample*0.1`; when the first sample is
nonzero (samples are nonnegative latencies) this coincides with the
spec-worded rule, and for latencies `[100, 200]` the value is `100` after
the first sample and `110` after the second. -/
theorem ema_correctness_amended (s : ℚ) (rest : List ℚ) (hs : 0 < s)
    (hrest : ∀ x ∈ rest, 0 ≤ x) :
    emaRun (s :: rest) = (emaSpecRun (s :: rest)).getD 0 ∧
    emaRun [(100 : ℚ)] = 100 ∧ emaRun [(100 : ℚ), 200] = 110 := by
  refine ⟨?_, ?_, ?_⟩
  · show List.foldl emaUpdate (emaUpdate 0 s) rest =
      (List.foldl emaSpecStep (emaSpecStep none s) rest).getD 0
    rw [show emaUpdate 0 s = s from by simp [emaUpdate]]
    exact (emaRun_agree rest s hs hrest).1
  · norm_num [emaRun, emaUpdate]
  · norm_num [emaRun, emaUpdate]

/-! ### `GET /api/sync-status` -/

/-- The JSON payload on the success path.  `percentageComplete` is kept
as the rational before `toFixed(2)` string formatting;
`estimatedTimeToCompletion` and `elapsedTime` are kept in seconds before
`formatTime` rendering, with `none` standing for the literal string
reported when no average is available yet. -/
structure SyncStatusPayload where
  currentBlockHeight : Nat
  latestBlockHeight : Nat
  percentageComplete : ℚ
  isSynced : Bool
  estimatedTimeToCompletion : Option ℚ
  elapsedTime : ℚ
  averageBlockTimeSec : ℚ
deriving DecidableEq, Repr

/-- An API handler outcome: `res.json(payload)` or
`res.status(500).json(...)` from the `catch` branch. -/
inductive ApiResponse (α : Type) where
  | ok (a : α)
  | internalError
deriving DecidableEq, Repr

/-- The `/api/sync-status` handler.  `cur`, `avg` (ms) and `startTime`
are the in-memory tracker state, `now` the clock, and `tipResult` the
outcome of `archClient.getBlockCount()` — `none` when that RPC rejects,
which lands the whole handler in its `catch` branch. -/
def syncStatusHandler (cur : Nat) (avg startTime now : ℚ) (tipResult : Option Nat) :
    ApiResponse SyncStatusPayload :=
  match tipResult with
  | none => .internalError
  | some tip =>
    .ok { currentBlockHeight := cur
          latestBlockHeight := tip
          percentageComplete := (cur : ℚ) / (tip : ℚ) * 100
          isSynced := decide (tip ≤ cur)
          estimatedTimeToCompletion :=
            if 0 < avg then some (((tip : ℚ) - (cur : ℚ)) * avg / 1000) else none
          elapsedTime := (now - startTime) / 1000
          averageBlockTimeSec := avg / 1000 }

/-- C7 counterexample: a failure of the upstream tip-height query is
propagated to the caller as the structured 500 error response — it is
not reported as an "unknown" value inside a success payload. -/
theorem sync_status_tip_error_counterexample :
    syncStatusHandler 5 100 0 1000 none = ApiResponse.internalError := rfl

/-- C7 amended: the sync-status computation is a total function of the
tracker state and the tip-query outcome; a tip-query failure yields the
structured 500 error response, while on success the handler always
produces a payload, reporting the ETA as unavailable exactly when no
average block time has been observed yet. -/
theorem sync_status_amended (cur : Nat) (avg startTime now : ℚ) (tipResult : Option Nat) :
    (tipResult = none →
      syncStatusHandler cur avg startTime now tipResult = .internalError) ∧
    (∀ tip, tipResult = some tip →
      ∃ p, syncStatusHandler cur avg startTime now tipResult = .ok p ∧
        p.currentBlockHeight = cur ∧ p.latestBlockHeight = tip ∧
        (p.estimatedTimeToCompletion = none ↔ ¬0 < avg) ∧
        (p.isSynced = true ↔ tip ≤ cur)) := by
  constructor
  · intro h
    rw [h]
    rfl
  · intro tip h
    subst h
    refine ⟨_, rfl, rfl, rfl, ?_, ?_⟩
    · by_cases havg : 0 < avg <;> simp [havg]
    · simp [syncStatusHandler]

/-! ### `GET /api/network-stats` -/

/-- `new Date(x).getTime()` applied to an aggregate result: the SQL NULL
of an empty row set becomes the epoch, 0. -/
def aggTime : Option Int → Int
  | none => 0
  | some t => t

/-- SQL `MIN` over a column of values (`none` = NULL on no rows). -/
def listMin : List Int → Option Int
  | [] => none
  | h :: t => some (t.foldl min h)

/-- SQL `MAX` over a column of values (`none` = NULL on no rows). -/
def listMax : List Int → Option Int
  | [] => none
  | h :: t => some (t.foldl max h)

/-- The owning-block timestamps of the rows of
`transactions t JOIN blocks b ON t.block_height = b.height
WHERE b.timestamp > $1`. -/
def recentJoinTimestamps (s : Storage) (cutoff : Int) : List Int :=
  s.transactions.filterMap (fun p =>
    match lookupA s.blocks p.2.block_height with
    | some b => if cutoff < b.timestamp then some b.timestamp else none
    | none => none)

/-- `timeSpanSeconds = (endTime - startTime) / 1000` for the 60-second
window (`oneMinuteAgo = now - 60000`). -/
def recentSpanSeconds (s : Storage) (now : Int) : ℚ :=
  ((aggTime (listMax (recentJoinTimestamps s (now - 60000))) : ℚ) -
    (aggTime (listMin (recentJoinTimestamps s (now - 60000))) : ℚ)) / 1000

/-- `tps = timeSpanSeconds > 0 ? recentTxCount / timeSpanSeconds : 0`. -/
def tpsOf (s : Storage) (now : Int) : ℚ :=
  if 0 < recentSpanSeconds s now then
    ((recentJoinTimestamps s (now - 60000)).length : ℚ) / recentSpanSeconds s now
  else 0

/-- The block timestamps of the rows of the last-100-blocks subquery
(`blocks b LEFT JOIN transactions t ... WHERE b.height >
MAX(height) - 100`): one row per (block, transaction) pair plus one
NULL-transaction row per transaction-less block; on an empty blocks
table `MAX(height)` is NULL and the comparison selects nothing. -/
def last100Timestamps (s : Storage) : List Int :=
  match maxHeightQ s with
  | none => []
  | some m =>
    (s.blocks.filter (fun p => ((m : Int) - 100) < (p.2.height : Int))).flatMap
      (fun p =>
        match s.transactions.filter (fun q => q.2.block_height == p.2.height) with
        | [] => [p.2.timestamp]
        | ts => ts.map (fun _ => p.2.timestamp))

def last100SpanSeconds (s : Storage) : ℚ :=
  ((aggTime (listMax (last100Timestamps s)) : ℚ) -
    (aggTime (listMin (last100Timestamps s)) : ℚ)) / 1000

/-- `trueTps = last100BlocksTimeSpanSeconds > 0 ? ... : 0`. -/
def trueTpsOf (s : Storage) : ℚ :=
  if 0 < last100SpanSeconds s then
    ((last100Timestamps s).length : ℚ) / last100SpanSeconds s
  else 0

/-- The `/api/network-stats` response (numeric fields kept as rationals
before `toFixed(2)` rendering). -/
structure NetworkStats where
  totalTransactions : Nat
  blockHeight : Nat
  slotHeight : Nat
  tps : ℚ
  trueTps : ℚ
deriving DecidableEq, Repr

/-- The `/api/network-stats` handler (`tip` = `getBlockCount()` reply). -/
def networkStats (s : Storage) (now : Int) (tip : Nat) : NetworkStats :=
  { totalTransactions := s.transactions.length
    blockHeight := tip
    slotHeight := tip
    tps := tpsOf s now
    trueTps := trueTpsOf s }

/-- C8: both transactions-per-second figures guard the division: whenever
the corresponding block-timestamp span is zero — in particular when no
transaction fell in the last 60 seconds, where both aggregates are NULL
and the span degenerates to 0 — the figure is reported as 0 rather than
a division being attempted. -/
theorem network_stats_zero_span_guard (s : Storage) (now : Int) (tip : Nat) :
    (recentSpanSeconds s now = 0 → (networkStats s now tip).tps = 0) ∧
    (last100SpanSeconds s = 0 → (networkStats s now tip).trueTps = 0) ∧
    (recentJoinTimestamps s (now - 60000) = [] → (networkStats s now tip).tps = 0) := by
  refine ⟨?_, ?_, ?_⟩
  · intro h
    simp [networkStats, tpsOf, h]
  · intro h
    simp [networkStats, trueTpsOf, h]
  · intro h
    have hspan : recentSpanSeconds s now = 0 := by
      simp [recentSpanSeconds, h, listMax, listMin, aggTime]
    simp [networkStats, tpsOf, hspan]

/-! ### Startup database connection (`connectWithRetry`) -/

def MAX_RETRIES : Nat := 10

def RETRY_DELAY : Nat := 5000

/-- Outcome of `connectWithRetry()`: a normal return after some number of
`pool.connect()` attempts, or `process.exit(1)`. -/
inductive ConnectResult where
  | connected (attemptsUsed : Nat)
  | fatalExit
deriving DecidableEq, Repr

/-- The `while (retries < MAX_RETRIES)` loop, with `fuel` the remaining
allowed attempts and `att` the number already made; `ok i` tells whether
the i-th `pool.connect()` succeeds. -/
def connectLoop (ok : Nat → Bool) : Nat → Nat → ConnectResult
  | 0, _ => .fatalExit
  | fuel + 1, att =>
    if ok att then .connected (att + 1) else connectLoop ok fuel (att + 1)

def connectWithRetry (ok : Nat → Bool) : ConnectResult :=
  connectLoop ok MAX_RETRIES 0

/-- Total backoff slept (each failed attempt sleeps `RETRY_DELAY` ms). -/
def connectDelay (ok : Nat → Bool) : Nat → Nat → Nat
  | 0, _ => 0
  | fuel + 1, att =>
    if ok att then 0 else RETRY_DELAY + connectDelay ok fuel (att + 1)

theorem connectLoop_spec (ok : Nat → Bool) (fuel : Nat) : ∀ att : Nat,
    (connectLoop ok fuel att = .fatalExit ↔
      ∀ i, att ≤ i → i < att + fuel → ok i = false) ∧
    (∀ n, connectLoop ok fuel att = .connected n →
      ∃ i, att ≤ i ∧ i < att + fuel ∧ ok i = true ∧ n = i + 1 ∧
        ∀ j, att ≤ j → j < i → ok j = false) := by
  induction fuel with
  | zero =>
    intro att
    constructor
    · constructor
      · intro _ i h1 h2
        omega
      · intro _
        rfl
    · intro n h
      exact absurd h (by simp [connectLoop])
  | succ fuel ih =>
    intro att
    cases hok : ok att with
    | true =>
      constructor
      · constructor
        · intro h
          simp [connectLoop, hok] at h
        · intro h
          have := h att (Nat.le_refl att) (by omega)
          rw [hok] at this
          exact absurd this (by simp)
      · intro n h
        simp only [connectLoop, hok, if_true] at h
        refine ⟨att, Nat.le_refl att, by omega, hok, ?_, ?_⟩
        · cases h
          rfl
        · intro j h1 h2
          omega
    | false =>
      have hrec : connectLoop ok (fuel + 1) att = connectLoop ok fuel (att + 1) := by
        simp [connectLoop, hok]
      constructor
      · rw [hrec, (ih (att + 1)).1]
        constructor
        · intro h i h1 h2
          by_cases hi : i = att
          · rw [hi]
            exact hok
          · exact h i (by omega) (by omega)
        · intro h i h1 h2
          exact h i (by omega) (by omega)
      · intro n h
        rw [hrec] at h
        obtain ⟨i, h1, h2, h3, h4, h5⟩ := (ih (att + 1)).2 n h
        refine ⟨i, by omega, by omega, h3, h4, ?_⟩
        intro j hj1 hj2
        by_cases hj : j = att
        · rw [hj]
          exact hok
        · exact h5 j (by omega) hj2

theorem connectDelay_all_fail (ok : Nat → Bool) (fuel : Nat) : ∀ att : Nat,
    (∀ i, att ≤ i → i < att + fuel → ok i = false) →
    connectDelay ok fuel att = fuel * RETRY_DELAY := by
  induction fuel with
  | zero =>
    intro att _
    simp [connectDelay]
  | succ fuel ih =>
    intro att h
    have hok : ok att = false := h att (Nat.le_refl att) (by omega)
    have := ih (att + 1) (fun i h1 h2 => h i (by omega) (by omega))
    simp only [connectDelay, hok, if_false, Bool.false_eq_true, this]
    ring

/-- An iteration of the sync loop whose first upstream call
(`getBlockHash`) rejects. -/
def failEnv : Env :=
  { blockHash := none, getBlock := fun _ => none, fetchTx := fun _ => none, commitOk := true }

/-- C9: the startup storage connection is retried a bounded number of
times — exactly `MAX_RETRIES = 10` attempts with a fixed
`RETRY_DELAY = 5000` ms sleep after each failure; exhausting them is
fatal (`process.exit(1)`) precisely when every attempt within the bound
fails, while a success within the bound returns normally after the first
succeeding attempt.  By contrast, per-block sync errors are retried
without bound: any number of consecutive failing iterations leaves the
engine at the same state, still retrying, and never terminates. -/
theorem connect_retry_bounded (ok : Nat → Bool) :
    MAX_RETRIES = 10 ∧ RETRY_DELAY = 5000 ∧
    (connectWithRetry ok = .fatalExit ↔ ∀ i < MAX_RETRIES, ok i = false) ∧
    (∀ n, connectWithRetry ok = .connected n →
      ∃ i, i < MAX_RETRIES ∧ ok i = true ∧ n = i + 1 ∧ ∀ j < i, ok j = false) ∧
    ((∀ i < MAX_RETRIES, ok i = false) →
      connectDelay ok MAX_RETRIES 0 = MAX_RETRIES * RETRY_DELAY) ∧
    (∀ (n : Nat) (st : Nat × Storage),
      syncRun (List.replicate n failEnv) st = st ∧ stepFailed failEnv st = true) := by
  refine ⟨rfl, rfl, ?_, ?_, ?_, ?_⟩
  · rw [show connectWithRetry ok = connectLoop ok MAX_RETRIES 0 from rfl,
      (connectLoop_spec ok MAX_RETRIES 0).1]
    constructor
    · intro h i hi
      exact h i (Nat.zero_le i) (by omega)
    · intro h i _ h2
      exact h i (by omega)
  · intro n h
    obtain ⟨i, _, h2, h3, h4, h5⟩ := (connectLoop_spec ok MAX_RETRIES 0).2 n h
    exact ⟨i, by omega, h3, h4, fun j hj => h5 j (Nat.zero_le j) hj⟩
  · intro h
    exact connectDelay_all_fail ok MAX_RETRIES 0 (fun i _ h2 => h i (by omega))
  · intro n st
    refine ⟨?_, rfl⟩
    induction n generalizing st with
    | zero => rfl
    | succ n ihn =>
      show syncRun (List.replicate (n + 1) failEnv) st = st
      rw [List.replicate_succ]
      show syncRun (List.replicate n failEnv) (syncStep failEnv st) = st
      rw [show syncStep failEnv st = st from rfl]
      exact ihn st

/-! ### Transaction-row field mapping inside `storeBlock` -/

/-- C10: for every transaction row built by `storeBlock`, the stored
`status` is 0 exactly when the upstream status string is `'Processing'`
and 1 for every other status value (not only `'Processed'`), and a
missing or empty upstream `bitcoin_txids` list is stored as the
empty-array sentinel `'\x7b\x7d'` while a nonempty one is stored as-is. -/
theorem tx_status_mapping (h : Nat) (t : String) (tx : ProcessedTransaction) :
    ((txRowOf h t tx).status = 0 ↔ tx.status = "Processing") ∧
    ((txRowOf h t tx).status = 1 ↔ tx.status ≠ "Processing") ∧
    (tx.bitcoin_txids = none → (txRowOf h t tx).bitcoin_txids = StoredTxids.lit "\x7b\x7d") ∧
    (tx.bitcoin_txids = some [] → (txRowOf h t tx).bitcoin_txids = StoredTxids.lit "\x7b\x7d") ∧
    (∀ x xs, tx.bitcoin_txids = some (x :: xs) →
      (txRowOf h t tx).bitcoin_txids = StoredTxids.arr (x :: xs)) := by
  refine ⟨?_, ?_, ?_, ?_, ?_⟩
  · by_cases hp : tx.status = "Processing" <;> simp [txRowOf, hp]
  · by_cases hp : tx.status = "Processing" <;> simp [txRowOf, hp]
  · intro hb
    simp [txRowOf, hb]
  · intro hb
    simp [txRowOf, hb]
  · intro x xs hb
    simp [txRowOf, hb]

/-! ### Concrete instantiations -/

/-- An iteration whose upstream calls all succeed, for a block with no
transactions. -/
def envOkDemo : Env :=
  { blockHash := some "h"
    getBlock := fun _ => some { timestamp := 5, bitcoin_block_height := none, transactions := [] }
    fetchTx := fun _ => none
    commitOk := true }

theorem sync_gap_free_witness :
    heightsOf (syncRun [envOkDemo, failEnv, envOkDemo] (0, emptyStorage)).2 =
      List.range (syncRun [envOkDemo, failEnv, envOkDemo] (0, emptyStorage)).1 :=
  (sync_gap_free [envOkDemo, failEnv, envOkDemo] (0, emptyStorage) rfl).1

def blockDemoA : Block :=
  { height := 0, hash := "a", timestamp := 1, bitcoin_block_height := none,
    transactions := ["t1"] }

theorem storeBlock_atomicity_witness :
    storeBlock (fun _ => none) true emptyStorage blockDemoA = (emptyStorage, false) :=
  (storeBlock_atomicity (fun _ => none) true emptyStorage blockDemoA).1
    (Or.inl ⟨"t1", by decide, rfl⟩)

def txDemoB : ProcessedTransaction :=
  { runtime_transaction := "d", status := "Processing", bitcoin_txids := some ["b1"] }

def blockDemoB : Block :=
  { height := 0, hash := "a", timestamp := 1, bitcoin_block_height := none,
    transactions := ["t"] }

def storageDemoB : Storage :=
  { blocks := [(0, blockRowOf blockDemoB)], transactions := [("t", txRowOf 0 "t" txDemoB)] }

theorem ingest_idempotent_witness :
    storeBlock (fun _ => some txDemoB) true storageDemoB blockDemoB = (storageDemoB, true) :=
  ingest_idempotent (fun _ => some txDemoB) storageDemoB blockDemoB rfl
    (by
      intro t ht
      rcases List.mem_singleton.mp ht with rfl
      exact ⟨txDemoB, rfl, rfl⟩)

def chainDemo : DetChain :=
  { blockHash := fun h => toString h
    timestamp := fun h => (h : Int)
    bitcoin_block_height := fun _ => none
    txids := fun _ => []
    fetchTx := fun _ => { runtime_transaction := "r", status := "Processed", bitcoin_txids := none } }

theorem resume_correct_witness :
    initCursor emptyStorage = 0 ∧
    initCursor (persistRange chainDemo (List.range (1 + 1)) emptyStorage) = 1 ∧
    persistRange chainDemo (List.range' 1 (2 + 1 - 1))
        (persistRange chainDemo (List.range (1 + 1)) emptyStorage) =
      persistRange chainDemo (List.range (2 + 1)) emptyStorage :=
  resume_correct chainDemo 2 1 (by decide)

def txRowDemoC : TxRow :=
  { txid := "aa", block_height := 3, data := "d", status := 1,
    bitcoin_txids := StoredTxids.lit "\x7b\x7d" }

/-- A store in which the term `"aa"` is both a stored transaction id and
a stored block hash. -/
def storageDemoC : Storage :=
  { blocks := [(3, { height := 3, hash := "aa", timestamp := 1, bitcoin_block_height := none })],
    transactions := [("aa", txRowDemoC)] }

theorem search_precedence_witness :
    searchHandler storageDemoC "aa" = SearchResult.transactionResult txRowDemoC :=
  (search_precedence storageDemoC "aa").1 txRowDemoC rfl

theorem ema_correctness_amended_witness :
    emaRun [(100 : ℚ), 200] = (emaSpecRun [(100 : ℚ), 200]).getD 0 ∧
    emaRun [(100 : ℚ)] = 100 ∧ emaRun [(100 : ℚ), 200] = 110 :=
  ema_correctness_amended 100 [200] (by norm_num)
    (by
      intro x hx
      rcases List.mem_singleton.mp hx with rfl
      norm_num)

theorem sync_status_amended_witness :
    syncStatusHandler 7 2 0 50 none = ApiResponse.internalError :=
  (sync_status_amended 7 2 0 50 none).1 rfl

theorem network_stats_zero_span_guard_witness :
    (networkStats emptyStorage 0 9).tps = 0 :=
  (network_stats_zero_span_guard emptyStorage 0 9).1
    (by simp [recentSpanSeconds, recentJoinTimestamps, emptyStorage, listMax, listMin, aggTime])

theorem connect_retry_bounded_witness :
    connectWithRetry (fun _ => false) = ConnectResult.fatalExit ∧
    syncRun (List.replicate 3 failEnv) (2, emptyStorage) = (2, emptyStorage) :=
  ⟨(connect_retry_bounded (fun _ => false)).2.2.1.mpr (fun _ _ => rfl),
   ((connect_retry_bounded (fun _ => false)).2.2.2.2.2 3 (2, emptyStorage)).1⟩

def txDemoD : ProcessedTransaction :=
  { runtime_transaction := "d", status := "Processing", bitcoin_txids := none }

theorem tx_status_mapping_witness :
    (txRowOf 4 "t" txDemoD).status = 0 ∧
    (txRowOf 4 "t" txDemoD).bitcoin_txids = StoredTxids.lit "\x7b\x7d" :=
  ⟨(tx_status_mapping 4 "t" txDemoD).1.mpr rfl,
   (tx_status_mapping 4 "t" txDemoD).2.2.1 rfl⟩

end ArchIndexer
